import Mathlib

/-!
Verification of the CodeSupervisor security-assistant core: the rule-based
diagnostic engine (`securityRules.ts`), the knowledge base with its keyword
fallback search (`knowledgeBase.ts`), the severity-weighted health score
(`extension.ts`), and the LLM completion pipeline (`llmIntegration`).

The TypeScript code is shallowly embedded: texts are `List Char` / `String`,
the JavaScript regexes of the rules are translated into executable anchored
matchers with the same leftmost/greedy/backtracking semantics, and the
`exec`-with-`g`-flag loop is an explicit scanner.  Fallible collaborators
(the embedding backend, the chat model) are modelled as functions returning
`Except`, and `try`/`catch` blocks as explicit `match`es on those results.
-/

set_option maxRecDepth 1000000

namespace CodeSupervisor

/-! ## Character classes (JS regex semantics, ASCII fragment) -/

/-- JS `\w` word-character class: `[A-Za-z0-9_]`. -/
def isWordChar (c : Char) : Bool := c.isAlpha || c.isDigit || c == '_'

/-- JS `\s` whitespace class (ASCII fragment). -/
def isSpaceJS (c : Char) : Bool :=
  c == ' ' || c == '\t' || c == '\n' || c == '\r' ||
  c == Char.ofNat 11 || c == Char.ofNat 12

/-- JS `.` (without the `s` flag) matches anything but a line terminator. -/
def isNotNl (c : Char) : Bool := !(c == '\n' || c == '\r')

/-- JS `[\w.]` class used by the rules' variable patterns. -/
def isWordDot (c : Char) : Bool := isWordChar c || c == '.'

/-- The apostrophe character. -/
def quoteS : Char := Char.ofNat 39

/-- The backtick character. -/
def quoteB : Char := Char.ofNat 96

/-- The quote class `['"\x60]` of the sensitive-data rule. -/
def isQuote (c : Char) : Bool := c == quoteS || c == '"' || c == quoteB

/-! ## Matcher combinators -/

/-- Case-insensitive literal: consume `l` (up to ASCII case) from the front of
`s`, returning the rest. -/
def litCI : List Char → List Char → Option (List Char)
  | [], s => some s
  | _ :: _, [] => none
  | x :: xs, y :: ys => if x.toLower == y.toLower then litCI xs ys else none

/-- Case-insensitive prefix test (used for the `(?!process\.env)` lookahead). -/
def startsWithCI (l s : List Char) : Bool := (litCI l s).isSome

/-- First-match alternation over literal words.  All alternations in the
embedded regexes have pairwise non-overlapping alternatives, so committing to
the first prefix match coincides with full backtracking. -/
def matchAltCI : List (List Char) → List Char → Option (Nat × List Char)
  | [], _ => none
  | l :: ls, s =>
    match litCI l s with
    | some r => some (l.length, r)
    | none => matchAltCI ls s

/-- `\b` before a word character: satisfied at the string start or after a
non-word character.  `prev` is the character preceding the current position. -/
def bOk : Option Char → Bool
  | none => true
  | some c => !isWordChar c

/-- `\b` after a word character: satisfied at the string end or before a
non-word character. -/
def wordEndOk : List Char → Bool
  | [] => true
  | c :: _ => !isWordChar c

/-! ## SQL-injection rule matchers (`sqlInjectionRule`, part_002 lines 44-48) -/

/-- Anchored `\+\s*[\w.]+`: a `+` sign, optional whitespace, a variable. -/
def plusTail : List Char → Option Nat
  | [] => none
  | c :: cs =>
    if c == '+' then
      let ws := cs.takeWhile isSpaceJS
      let rest := cs.dropWhile isSpaceJS
      let w := rest.takeWhile isWordDot
      if w.isEmpty then none else some (1 + ws.length + w.length)
    else none

/-- Anchored `.*\+\s*[\w.]+` with greedy backtracking: consume a non-newline
character and retry, falling back to matching the `+` at the current spot. -/
def dotStarPlus : List Char → Option Nat
  | [] => none
  | c :: cs =>
    (if isNotNl c then (dotStarPlus cs).map (· + 1) else none) <|> plusTail (c :: cs)

def sqlKeywords : List (List Char) :=
  ["SELECT".data, "INSERT".data, "UPDATE".data, "DELETE".data, "DROP".data]

/-- Anchored matcher for `/\b(SELECT|INSERT|UPDATE|DELETE|DROP)\b.*\+\s*[\w.]+/gi`. -/
def sqlPat1 (prev : Option Char) (s : List Char) : Option Nat :=
  if bOk prev then
    match matchAltCI sqlKeywords s with
    | some (klen, rest) =>
      if wordEndOk rest then (dotStarPlus rest).map (· + klen) else none
    | none => none
  else none

/-- Anchored matcher for `/\bNAME\s*\(\s*.*\+\s*[\w.]+/gi` with `NAME` one of
`execute`, `execSql`. -/
def sqlCallPat (fname : List Char) (prev : Option Char) (s : List Char) : Option Nat :=
  if bOk prev then
    match litCI fname s with
    | some r1 =>
      let ws1 := r1.takeWhile isSpaceJS
      let r2 := r1.dropWhile isSpaceJS
      match r2 with
      | '(' :: r3 =>
        let ws2 := r3.takeWhile isSpaceJS
        let r4 := r3.dropWhile isSpaceJS
        (dotStarPlus r4).map (· + fname.length + ws1.length + 1 + ws2.length)
      | _ => none
    | none => none
  else none

/-! ## XSS rule matchers (`xssVulnerabilityRule`, part_002 lines 80-84) -/

def htmlProps : List (List Char) := ["innerHTML".data, "outerHTML".data]

/-- Anchored matcher for `/\b(innerHTML|outerHTML)\s*=\s*[\w.]+/gi`. -/
def xssPat1 (prev : Option Char) (s : List Char) : Option Nat :=
  if bOk prev then
    match matchAltCI htmlProps s with
    | some (klen, r1) =>
      let ws1 := r1.takeWhile isSpaceJS
      let r2 := r1.dropWhile isSpaceJS
      match r2 with
      | '=' :: r3 =>
        let ws2 := r3.takeWhile isSpaceJS
        let r4 := r3.dropWhile isSpaceJS
        let w := r4.takeWhile isWordDot
        if w.isEmpty then none
        else some (klen + ws1.length + 1 + ws2.length + w.length)
      | _ => none
    | none => none
  else none

/-- Anchored matcher for `/document\.write\s*\(\s*[\w.]+\s*\)/gi` (no `\b`). -/
def xssPat2 (_ : Option Char) (s : List Char) : Option Nat :=
  match litCI "document.write".data s with
  | some r1 =>
    let ws1 := r1.takeWhile isSpaceJS
    let r2 := r1.dropWhile isSpaceJS
    match r2 with
    | '(' :: r3 =>
      let ws2 := r3.takeWhile isSpaceJS
      let r4 := r3.dropWhile isSpaceJS
      let w := r4.takeWhile isWordDot
      if w.isEmpty then none
      else
        let r5 := r4.dropWhile isWordDot
        let ws3 := r5.takeWhile isSpaceJS
        let r6 := r5.dropWhile isSpaceJS
        match r6 with
        | ')' :: _ =>
          some (14 + ws1.length + 1 + ws2.length + w.length + ws3.length + 1)
        | _ => none
    | _ => none
  | none => none

/-- Anchored `\s*\)\.html\s*\(\s*[\w.]+\s*\)`: the closer of the jQuery
pattern, tried at each fallback position of its `.*`. -/
def x3Close (s : List Char) : Option Nat :=
  let ws0 := s.takeWhile isSpaceJS
  let r0 := s.dropWhile isSpaceJS
  match r0 with
  | ')' :: '.' :: r2 =>
    match litCI "html".data r2 with
    | some r3 =>
      let ws1 := r3.takeWhile isSpaceJS
      let r4 := r3.dropWhile isSpaceJS
      match r4 with
      | '(' :: r5 =>
        let ws2 := r5.takeWhile isSpaceJS
        let r6 := r5.dropWhile isSpaceJS
        let w := r6.takeWhile isWordDot
        if w.isEmpty then none
        else
          let r7 := r6.dropWhile isWordDot
          let ws3 := r7.takeWhile isSpaceJS
          let r8 := r7.dropWhile isSpaceJS
          match r8 with
          | ')' :: _ =>
            some (ws0.length + 2 + 4 + ws1.length + 1 + ws2.length + w.length +
              ws3.length + 1)
          | _ => none
      | _ => none
    | none => none
  | _ => none

/-- Anchored `.*\s*\)\.html\s*\(\s*[\w.]+\s*\)` with greedy backtracking. -/
def x3Tail : List Char → Option Nat
  | [] => none
  | c :: cs =>
    (if isNotNl c then (x3Tail cs).map (· + 1) else none) <|> x3Close (c :: cs)

/-- Anchored matcher for `/\$\s*\(\s*.*\s*\)\.html\s*\(\s*[\w.]+\s*\)/gi`. -/
def xssPat3 (_ : Option Char) (s : List Char) : Option Nat :=
  match s with
  | '$' :: r1 =>
    let ws1 := r1.takeWhile isSpaceJS
    let r2 := r1.dropWhile isSpaceJS
    match r2 with
    | '(' :: r3 =>
      let ws2 := r3.takeWhile isSpaceJS
      let r4 := r3.dropWhile isSpaceJS
      (x3Tail r4).map (· + 1 + ws1.length + 1 + ws2.length)
    | _ => none
  | _ => none

/-! ## Sensitive-data rule matchers (`sensitiveDataRule`, part_002 lines 116-119) -/

/-- The `api[_-]?key` alternative, with backtracking over the optional
separator. -/
def apiKeyAlt (s : List Char) : Option (Nat × List Char) :=
  match litCI "api".data s with
  | none => none
  | some r1 =>
    match r1 with
    | c :: r2 =>
      if c == '_' || c == '-' then
        match litCI "key".data r2 with
        | some r3 => some (7, r3)
        | none => (litCI "key".data r1).map fun r => (6, r)
      else (litCI "key".data r1).map fun r => (6, r)
    | [] => none

/-- The `(password|api[_-]?key|secret|token|credential)` group. -/
def kwSecret (s : List Char) : Option (Nat × List Char) :=
  match litCI "password".data s with
  | some r => some (8, r)
  | none =>
    match apiKeyAlt s with
    | some p => some p
    | none =>
      match litCI "secret".data s with
      | some r => some (6, r)
      | none =>
        match litCI "token".data s with
        | some r => some (5, r)
        | none => (litCI "credential".data s).map fun r => (10, r)

/-- `\s*=\s*(['"\x60])(?!process\.env)[^'"\x60]+\2` anchored after the secret
name (and optional plural `s`). -/
def secretAssign (s : List Char) : Option Nat :=
  let ws1 := s.takeWhile isSpaceJS
  let r2 := s.dropWhile isSpaceJS
  match r2 with
  | '=' :: r3 =>
    let ws2 := r3.takeWhile isSpaceJS
    let r4 := r3.dropWhile isSpaceJS
    match r4 with
    | q :: r5 =>
      if isQuote q then
        if startsWithCI "process.env".data r5 then none
        else
          let body := r5.takeWhile (fun c => !isQuote c)
          let r6 := r5.dropWhile (fun c => !isQuote c)
          if body.isEmpty then none
          else
            match r6 with
            | q2 :: _ =>
              if q2 == q then
                some (ws1.length + 1 + ws2.length + 1 + body.length + 1)
              else none
            | [] => none
      else none
    | [] => none
  | _ => none

/-- Anchored matcher for the hardcoded-secret pattern
`/\b(password|api[_-]?key|secret|token|credential)s?\s*=\s*(['"\x60])(?!process\.env)[^'"\x60]+\2/gi`. -/
def sensPat1 (prev : Option Char) (s : List Char) : Option Nat :=
  if bOk prev then
    match kwSecret s with
    | none => none
    | some (klen, r1) =>
      match r1 with
      | c :: r2 =>
        if c.toLower == 's' then
          match secretAssign r2 with
          | some n => some (klen + 1 + n)
          | none => (secretAssign r1).map (· + klen)
        else (secretAssign r1).map (· + klen)
      | [] => (secretAssign r1).map (· + klen)
  else none

def logMethods : List (List Char) := ["log".data, "debug".data, "info".data]

def logWords : List (List Char) :=
  ["password".data, "apiKey".data, "secret".data, "token".data]

/-- Anchored `.*\)` with greedy backtracking. -/
def sens2End : List Char → Option Nat
  | [] => none
  | c :: cs =>
    (if isNotNl c then (sens2End cs).map (· + 1) else none) <|>
      (if c == ')' then some 1 else none)

/-- Anchored `.*\b(password|apiKey|secret|token)\b.*\)` with greedy
backtracking; `prev` is the character preceding the current position. -/
def sens2Mid (prev : Char) : List Char → Option Nat
  | [] => none
  | c :: cs =>
    (if isNotNl c then (sens2Mid c cs).map (· + 1) else none) <|>
      (if !isWordChar prev then
        match matchAltCI logWords (c :: cs) with
        | some (klen, r) =>
          if wordEndOk r then (sens2End r).map (· + klen) else none
        | none => none
      else none)

/-- Anchored matcher for the sensitive-logging pattern
`/\bconsole\.(log|debug|info)\s*\(.*\b(password|apiKey|secret|token)\b.*\)/gi`. -/
def sensPat2 (prev : Option Char) (s : List Char) : Option Nat :=
  if bOk prev then
    match litCI "console.".data s with
    | some r1 =>
      match matchAltCI logMethods r1 with
      | some (mlen, r2) =>
        let ws := r2.takeWhile isSpaceJS
        let r3 := r2.dropWhile isSpaceJS
        match r3 with
        | '(' :: r4 => (sens2Mid '(' r4).map (· + 8 + mlen + ws.length + 1)
        | _ => none
      | none => none
    | none => none
  else none

/-! ## The `exec`-with-`g` scan loop -/

/-- One step of `while ((match = pattern.exec(text)) !== null)`: find the
leftmost match at or after the current position, record it, and resume at its
end (the character before the resumption point becomes the new `\b` context). -/
def scanGo (m : Option Char → List Char → Option Nat) :
    Nat → Option Char → List Char → Nat → List (Nat × Nat)
  | 0, _, _, _ => []
  | _ + 1, prev, [], pos =>
    match m prev [] with
    | some len => [(pos, len)]
    | none => []
  | fuel + 1, prev, c :: cs, pos =>
    match m prev (c :: cs) with
    | some len =>
      (pos, len) :: scanGo m fuel ((c :: cs).get? (len - 1)) (cs.drop (len - 1)) (pos + len)
    | none => scanGo m fuel (some c) cs (pos + 1)

/-- All matches `(start, length)` of an anchored matcher over a text. -/
def findMatches (m : Option Char → List Char → Option Nat) (text : List Char) :
    List (Nat × Nat) :=
  scanGo m (text.length + 1) none text 0

/-! ## Diagnostics and the rule engine (`runSecurityRules`) -/

inductive DiagnosticSeverity where
  | Error
  | Warning
  | Information
  | Hint
deriving DecidableEq, Repr

structure Diagnostic where
  severity : DiagnosticSeverity
  rangeStart : Nat
  rangeEnd : Nat
  message : String
  source : String
deriving DecidableEq, Repr

def sqlMsg : String := "可能存在SQL注入风险，建议使用参数化查询"

def xssMsg : String := "可能存在XSS风险，建议使用安全的DOM API或模板"

def sensMsg : String := "敏感数据可能被硬编码或泄露，建议使用环境变量或密钥管理系统"

/-- Diagnostics pushed for every match of one pattern. -/
def diagsOf (sev : DiagnosticSeverity) (msg : String)
    (m : Option Char → List Char → Option Nat) (text : List Char) : List Diagnostic :=
  (findMatches m text).map fun p =>
    ⟨sev, p.1, p.1 + p.2, msg, "security-assistant"⟩

/-- The SQL-injection rule body: its three patterns in order, each pushing
`Error`-severity diagnostics. -/
def sqlInjectionDiagnostics (text : String) : List Diagnostic :=
  diagsOf .Error sqlMsg sqlPat1 text.data ++
  diagsOf .Error sqlMsg (sqlCallPat "execute".data) text.data ++
  diagsOf .Error sqlMsg (sqlCallPat "execSql".data) text.data

/-- The XSS rule body: its three patterns in order.  The source pushes
`DiagnosticSeverity.Warning` diagnostics (part_002 line 90) even though the
rule itself is declared with severity `Error`. -/
def xssDiagnostics (text : String) : List Diagnostic :=
  diagsOf .Warning xssMsg xssPat1 text.data ++
  diagsOf .Warning xssMsg xssPat2 text.data ++
  diagsOf .Warning xssMsg xssPat3 text.data

/-- The sensitive-data rule body: its two patterns in order, pushing
`Warning`-severity diagnostics. -/
def sensitiveDataDiagnostics (text : String) : List Diagnostic :=
  diagsOf .Warning sensMsg sensPat1 text.data ++
  diagsOf .Warning sensMsg sensPat2 text.data

/-- A security rule; `validate` may fail, modelling a rejected promise. -/
structure SecurityRule where
  id : String
  name : String
  description : String
  severity : DiagnosticSeverity
  validate : String → Except String (List Diagnostic)

def sqlInjectionRule : SecurityRule where
  id := "security-sql-injection"
  name := "SQL Injection Detection"
  description := "检测可能导致SQL注入的代码模式"
  severity := .Error
  validate := fun text => .ok (sqlInjectionDiagnostics text)

def xssVulnerabilityRule : SecurityRule where
  id := "security-xss"
  name := "Cross-Site Scripting Detection"
  description := "检测可能导致XSS攻击的代码模式"
  severity := .Error
  validate := fun text => .ok (xssDiagnostics text)

def sensitiveDataRule : SecurityRule where
  id := "security-sensitive-data"
  name := "Sensitive Data Exposure"
  description := "检测可能导致敏感数据暴露的代码模式"
  severity := .Warning
  validate := fun text => .ok (sensitiveDataDiagnostics text)

/-- Registration order of the built-in rules (part_002 lines 141-143); the
registry `Map` iterates in insertion order. -/
def builtinRules : List SecurityRule :=
  [sqlInjectionRule, xssVulnerabilityRule, sensitiveDataRule]

/-- `runSecurityRules` over an arbitrary rule list: each rule's diagnostics
are appended; a rule whose `validate` fails is logged and contributes
nothing (the `try`/`catch` in part_002 lines 152-168). -/
def runSecurityRulesOver (rules : List SecurityRule) (text : String) :
    List Diagnostic :=
  rules.foldl
    (fun acc rule =>
      match rule.validate text with
      | .ok ds => acc ++ ds
      | .error _ => acc)
    []

/-- `runSecurityRules` on the built-in registry. -/
def runSecurityRules (text : String) : List Diagnostic :=
  runSecurityRulesOver builtinRules text

/-! ## Documents and the knowledge base (`documentModel.ts`, `knowledgeBase.ts`) -/

structure DocumentMetadata where
  category : String
  severity : String
  id : Option String := none
  tags : Option (List String) := none
deriving DecidableEq, Repr

structure Document where
  pageContent : String
  metadata : DocumentMetadata
deriving DecidableEq, Repr

/-- JS `String.toLowerCase` (ASCII fragment; the corpus contents contain no
non-ASCII cased letters). -/
def lowerStr (s : String) : String := ⟨s.data.map Char.toLower⟩

/-- JS `String.includes` on character lists. -/
def listContains (needle : List Char) : List Char → Bool
  | [] => needle.isEmpty
  | c :: t => needle.isPrefixOf (c :: t) || listContains needle t

/-- JS `hay.includes(needle)`. -/
def strIncludes (hay needle : String) : Bool := listContains needle.data hay.data

mutual

/-- JS `split(/\s+/)`: accumulating a token (`cur` is reversed). -/
def splitWsTok (cur : List Char) : List Char → List (List Char)
  | [] => [cur.reverse]
  | c :: cs =>
    if isSpaceJS c then cur.reverse :: splitWsSep cs
    else splitWsTok (c :: cur) cs

/-- JS `split(/\s+/)`: inside a separator run. -/
def splitWsSep : List Char → List (List Char)
  | [] => [[]]
  | c :: cs => if isSpaceJS c then splitWsSep cs else splitWsTok [c] cs

end

/-- JS `query.split(/\s+/)` (leading/trailing separators produce empty
pieces, exactly as in JS). -/
def splitWsJS (s : String) : List String := (splitWsTok [] s.data).map String.mk

/-- The per-document score of the keyword fallback
(`simpleKeywordSearch`, knowledgeBase.ts lines 133-158): one point per query
keyword contained in the lowercased content, two points when the (non-empty)
category is contained in the lowercased query, one point per tag contained in
the lowercased query. -/
def docScore (keywords : List String) (query : String) (doc : Document) : Nat :=
  let content := lowerStr doc.pageContent
  (keywords.countP fun kw => strIncludes content kw) +
  (if doc.metadata.category ≠ "" &&
      strIncludes (lowerStr query) (lowerStr doc.metadata.category) then 2 else 0) +
  (match doc.metadata.tags with
   | some ts => ts.countP fun tag => strIncludes (lowerStr query) (lowerStr tag)
   | none => 0)

/-- Stable insertion into a descending-by-score list: a new element goes
before strictly smaller scores and after earlier equal scores. -/
def insertDesc (x : Document × Nat) : List (Document × Nat) → List (Document × Nat)
  | [] => [x]
  | y :: ys => if x.2 ≥ y.2 then x :: y :: ys else y :: insertDesc x ys

/-- Stable descending sort by score, modelling the (stable, per the JS spec)
`Array.sort((a, b) => b.score - a.score)`. -/
def sortDesc : List (Document × Nat) → List (Document × Nat)
  | [] => []
  | x :: xs => insertDesc x (sortDesc xs)

/-- The keyword fallback search (knowledgeBase.ts lines 128-165). -/
def simpleKeywordSearch (documents : List Document) (query : String) (k : Nat) :
    List Document :=
  let keywords := splitWsJS (lowerStr query)
  let scoredDocs := documents.map fun doc => (doc, docScore keywords query doc)
  ((sortDesc scoredDocs).take k).map Prod.fst

/-- The similarity backend (`HNSWLib` vector store), an external collaborator
whose `similaritySearch` may fail. -/
structure VectorStore where
  similaritySearch : String → Nat → Except String (List Document)

structure KnowledgeBase where
  documents : List Document
  vectorStore : Option VectorStore
  isInitialized : Bool

/-- `searchSimilarDocuments` (knowledgeBase.ts lines 105-125): without an
initialized vector store it uses the keyword fallback; otherwise it tries the
similarity search and falls back on failure (`try`/`catch`). -/
def searchSimilarDocuments (kb : KnowledgeBase) (query : String) (k : Nat) :
    Except String (List Document) :=
  if !kb.isInitialized then .ok (simpleKeywordSearch kb.documents query k)
  else
    match kb.vectorStore with
    | none => .ok (simpleKeywordSearch kb.documents query k)
    | some vs =>
      match vs.similaritySearch query k with
      | .ok results => .ok (results.map fun d => ⟨d.pageContent, d.metadata⟩)
      | .error _ => .ok (simpleKeywordSearch kb.documents query k)

/-- `addDocuments` (knowledgeBase.ts lines 51-54): append and reset the
initialization flag. -/
def addDocuments (kb : KnowledgeBase) (newDocuments : List Document) : KnowledgeBase :=
  { kb with documents := kb.documents ++ newDocuments, isInitialized := false }

/-- A record of the persisted knowledge-file format. -/
structure RawDoc where
  pageContent : String
  metadata : DocumentMetadata
deriving DecidableEq, Repr

/-- `loadFromFile` (knowledgeBase.ts lines 14-43).  The file read and JSON
parse are modelled by the `parsed` argument.  On success the parsed documents
*replace* `documents` (plain assignment) and are returned; on failure the
state is unchanged and `[]` is returned.  Neither branch touches
`isInitialized` or `vectorStore`. -/
def loadFromFile (kb : KnowledgeBase) (parsed : Except String (List RawDoc)) :
    List Document × KnowledgeBase :=
  match parsed with
  | .ok jsonData =>
    let docs := jsonData.map fun item => ⟨item.pageContent, item.metadata⟩
    (docs, { kb with documents := docs })
  | .error _ => ([], kb)

/-- The three built-in default documents of `createDefaultKnowledge`
(knowledgeBase.ts lines 207-238), contents verbatim. -/
def defaultKnowledgeDocs : List Document :=
  [⟨"SQL注入是一种常见的安全漏洞，攻击者可以通过注入SQL语句破坏数据库查询逻辑。应使用参数化查询或ORM框架防止SQL注入。",
    { category := "sql-injection", severity := "high", id := some "SEC-001",
      tags := some ["database", "injection", "query"] }⟩,
   ⟨"XSS攻击通过在网页中注入恶意脚本，可能导致信息泄露或会话劫持。应使用内容安全策略(CSP)、输入验证和安全的模板系统。",
    { category := "xss", severity := "high", id := some "SEC-002",
      tags := some ["web", "javascript", "injection"] }⟩,
   ⟨"硬编码的密钥和敏感数据可能导致数据泄露。应使用环境变量、配置文件或密钥管理系统来存储敏感信息。",
    { category := "sensitive-data", severity := "medium", id := some "SEC-003",
      tags := some ["credentials", "secrets", "configuration"] }⟩]

/-- `createDefaultKnowledge` adds the default documents to the knowledge base
and returns them. -/
def createDefaultKnowledge (kb : KnowledgeBase) : List Document × KnowledgeBase :=
  (defaultKnowledgeDocs, addDocuments kb defaultKnowledgeDocs)

/-! ## Security score (`calculateSecurityScore`, extension.ts lines 1579-1603) -/

inductive IssueSeverity where
  | critical
  | high
  | medium
  | low
deriving DecidableEq, Repr

structure SecurityIssue where
  message : String
  severity : IssueSeverity
  line : Nat
  column : Nat
  filename : String
deriving DecidableEq, Repr

/-- The fixed per-severity deduction weights. -/
def severityWeight : IssueSeverity → Int
  | .critical => 10
  | .high => 5
  | .medium => 2
  | .low => 1

/-- `calculateSecurityScore`: 100 for no issues, otherwise 100 minus the
summed weights, the deduction clamped to 100 and the result clamped to 0. -/
def calculateSecurityScore (issues : List SecurityIssue) : Int :=
  if issues.isEmpty then 100
  else
    let deduction := issues.foldl (fun acc issue => acc + severityWeight issue.severity) 0
    max 0 (100 - min deduction 100)

/-! ## Code completion (`generateCodeCompletion`, llmIntegration lines 331-455) -/

/-- JS `String.trim` (ASCII whitespace fragment). -/
def trimJS (s : String) : String :=
  ⟨((s.data.dropWhile isSpaceJS).reverse.dropWhile isSpaceJS).reverse⟩

/-- Case-sensitive `X\s*Y` regex test (as in `exec\s*\(`): some position
starts with `a`, then optional whitespace, then `b`. -/
def containsSeqWs (a b : List Char) : List Char → Bool
  | [] => a.isEmpty && b.isEmpty
  | c :: t =>
    (a.isPrefixOf (c :: t) && b.isPrefixOf (((c :: t).drop a.length).dropWhile isSpaceJS)) ||
      containsSeqWs a b t

/-- Case-sensitive literal regex test. -/
def hasLit (needle s : String) : Bool := listContains needle.data s.data

def hasSeqWs (a b s : String) : Bool := containsSeqWs a.data b.data s.data

/-- The fixed ordered risk-pattern list scanned over each completion
candidate (llmIntegration lines 404-417): test, issue label, icon. -/
def securityIssues : List ((String → Bool) × String × String) :=
  [(fun s => hasSeqWs "exec" "(" s || hasSeqWs "eval" "(" s || hasSeqWs "Function" "(" s,
    "可能存在代码注入风险", "⚠️"),
   (fun s => hasSeqWs ".html" "(" s || hasLit "innerHTML" s || hasLit "outerHTML" s,
    "XSS风险", "🔒"),
   (fun s => hasLit "document.write" s || hasLit "document.writeln" s, "XSS风险", "🔒"),
   (fun s => hasLit "SELECT" s || hasLit "INSERT" s || hasLit "UPDATE" s ||
      hasLit "DELETE" s || hasLit "DROP" s || hasLit "CREATE" s || hasLit "ALTER" s,
    "SQL注入风险", "🛡️"),
   (fun s => hasLit "password" s || hasLit "secret" s || hasLit "token" s ||
      hasLit "key" s || hasLit "credential" s, "敏感信息处理", "🔑"),
   (fun s => hasLit "http:" s || hasLit "https:" s, "网络请求安全", "🌐"),
   (fun s => hasLit ".replace(" s || hasLit ".replaceAll(" s, "字符串替换安全", "📝"),
   (fun s => hasLit ".match(" s || hasLit ".test(" s || hasLit ".exec(" s,
    "正则表达式安全", "🔍"),
   (fun s => hasLit ".parse(" s || hasLit "JSON.parse" s, "JSON解析安全", "📋"),
   (fun s => hasLit "encodeURI" s || hasLit "encodeURIComponent" s || hasLit "escape" s,
    "URL编码", "🔗"),
   (fun s => hasLit ".trim(" s || hasLit ".toLowerCase(" s || hasLit ".toUpperCase(" s,
    "字符串处理", "✂️"),
   (fun s => hasSeqWs "try" "\x7b" s || hasSeqWs "catch" "(" s, "错误处理", "🔧")]

/-- Tag a candidate with the first matching risk label, or the generic safe
label: returns `(detail, icon)`. -/
def classifyCompletion (completion : String) : String × String :=
  match securityIssues.find? (fun rp => rp.1 completion) with
  | some rp => (rp.2.1 ++ " - 请确保安全处理", rp.2.2)
  | none => ("安全编码建议", "🔰")

structure CompletionItem where
  label : String
  kind : Nat
  data : Nat
  insertText : String
  detail : String
  documentation : String
deriving DecidableEq, Repr

def mkCompletionItem (idx : Nat) (completion : String) : CompletionItem :=
  let cls := classifyCompletion completion
  { label := cls.2 ++ " " ++ completion
    kind := 1
    data := idx + 1
    insertText := completion
    detail := cls.1
    documentation :=
      "安全编码助手建议: " ++ completion ++
        "\n\n此建议由安全编码助手提供，旨在帮助您编写更安全的代码。" }

def mapIdxFrom (f : Nat → String → CompletionItem) (i : Nat) :
    List String → List CompletionItem
  | [] => []
  | x :: xs => f i x :: mapIdxFrom f (i + 1) xs

/-- JS `split('\n')` accumulator (`cur` is reversed). -/
def splitNlTok (cur : List Char) : List Char → List (List Char)
  | [] => [cur.reverse]
  | c :: cs =>
    if c == '\n' then cur.reverse :: splitNlTok [] cs else splitNlTok (c :: cur) cs

/-- JS `s.split('\n')`. -/
def splitNl (s : String) : List String := (splitNlTok [] s.data).map String.mk

/-- `generateCodeCompletion`.  The LLM chain is the collaborator `invoke`
(context and current line to response text), which may fail; `offsetAt` is
the host document's offset of the cursor position.  Returns `[]` when the
LLM is uninitialized, when the *whole text before the cursor* trims to fewer
than 3 characters, or when the chain fails (`try`/`catch`); otherwise it
parses the response into at most 3 tagged candidates. -/
def generateCodeCompletion (llmInitialized : Bool)
    (invoke : String → String → Except String String)
    (text : String) (offsetAt : Nat) : List CompletionItem :=
  if !llmInitialized then []
  else
    let pfx : String := ⟨text.data.take offsetAt⟩
    if (trimJS pfx).length < 3 then []
    else
      let lines := splitNl pfx
      let currentLine := lines.getLast?.getD ""
      let start := lines.length - 10
      let contextLines := (lines.drop start).take (lines.length - 1 - start)
      let context := String.intercalate "\n" contextLines
      match invoke context currentLine with
      | .error _ => []
      | .ok response =>
        let parsed := ((splitNl response).filter
          fun line => (trimJS line).length > 0).take 3
        mapIdxFrom mkCompletionItem 0 parsed

/-- The current line's text before the cursor, as computed by the source
(`lines[lines.length - 1] || ''`). -/
def currentLinePrefix (text : String) (offsetAt : Nat) : String :=
  (splitNl ⟨text.data.take offsetAt⟩).getLast?.getD ""

/-! ## Generic matcher lemmas -/

theorem litCI_self (l r : List Char) : litCI l (l ++ r) = some r := by
  induction l with
  | nil => rfl
  | cons x xs ih => simp [litCI, ih]

theorem litCI_suffix {l : List Char} : ∀ {s r : List Char}, litCI l s = some r → r <:+ s := by
  induction l with
  | nil =>
    intro s r h
    simp only [litCI, Option.some.injEq] at h
    exact h ▸ List.suffix_refl s
  | cons x xs ih =>
    intro s r h
    cases s with
    | nil => simp [litCI] at h
    | cons y ys =>
      simp only [litCI] at h
      split at h
      · exact (ih h).trans (List.suffix_cons y ys)
      · simp at h

theorem litCI_none_of_head {x y : Char} (xs ys : List Char)
    (h : (x.toLower == y.toLower) = false) (rest : List Char) :
    litCI (x :: xs) ((y :: ys) ++ rest) = none := by
  simp [litCI, h]

theorem litCI_none_of_second {x1 x2 y1 y2 : Char} (xs ys : List Char)
    (h : (x2.toLower == y2.toLower) = false) (rest : List Char) :
    litCI (x1 :: x2 :: xs) ((y1 :: y2 :: ys) ++ rest) = none := by
  by_cases h1 : (x1.toLower == y1.toLower) = true
  · simp [litCI, h1, h]
  · simp only [Bool.not_eq_true] at h1
    simp [litCI, h1]

theorem matchAltCI_suffix {ls : List (List Char)} :
    ∀ {s : List Char} {k : Nat} {r : List Char}, matchAltCI ls s = some (k, r) → r <:+ s := by
  induction ls with
  | nil => intro s k r h; simp [matchAltCI] at h
  | cons l ls ih =>
    intro s k r h
    simp only [matchAltCI] at h
    cases hl : litCI l s with
    | some r0 => rw [hl] at h; simp at h; exact h.2 ▸ litCI_suffix hl
    | none => rw [hl] at h; exact ih h

theorem hOrElse_eq_some {α : Type} {a b : Option α} {c : α}
    (h : (a <|> b) = some c) : a = some c ∨ (a = none ∧ b = some c) := by
  cases a <;> simp_all

theorem hOrElse_isSome_left {α : Type} {a b : Option α} (h : a.isSome) :
    (a <|> b).isSome := by
  cases a <;> simp_all

theorem hOrElse_isSome_right {α : Type} {a b : Option α} (h : b.isSome) :
    (a <|> b).isSome := by
  cases a <;> simp_all

theorem dropWhile_append_of_all {p : Char → Bool} {c : List Char} (r : List Char)
    (hc : ∀ x ∈ c, p x = true) : (c ++ r).dropWhile p = r.dropWhile p := by
  induction c with
  | nil => rfl
  | cons x xs ih =>
    simp only [List.cons_append, List.dropWhile_cons, hc x (by simp), if_true]
    exact ih fun y hy => hc y (by simp [hy])

theorem dropWhile_cons_of_neg {p : Char → Bool} {v : Char} (d : List Char)
    (h : p v = false) : (v :: d).dropWhile p = v :: d := by
  simp [List.dropWhile_cons, h]

theorem takeWhile_cons_of_neg {p : Char → Bool} {v : Char} (d : List Char)
    (h : p v = false) : (v :: d).takeWhile p = [] := by
  simp [List.takeWhile_cons, h]

theorem takeWhile_append_of_all {p : Char → Bool} {c : List Char} (r : List Char)
    (hc : ∀ x ∈ c, p x = true) : (c ++ r).takeWhile p = c ++ r.takeWhile p := by
  induction c with
  | nil => rfl
  | cons x xs ih =>
    simp only [List.cons_append, List.takeWhile_cons, hc x (by simp), if_true]
    rw [ih fun y hy => hc y (by simp [hy])]

/-! ## Character-class facts -/

theorem space_cases {c : Char} (h : isSpaceJS c = true) :
    c = ' ' ∨ c = '\t' ∨ c = '\n' ∨ c = '\r' ∨ c = Char.ofNat 11 ∨ c = Char.ofNat 12 := by
  simp only [isSpaceJS, Bool.or_eq_true, beq_iff_eq] at h
  tauto

theorem quote_cases {c : Char} (h : isQuote c = true) :
    c = quoteS ∨ c = '"' ∨ c = quoteB := by
  simp only [isQuote, Bool.or_eq_true, beq_iff_eq] at h
  tauto

theorem wordDot_not_space {c : Char} (h : isWordDot c = true) : isSpaceJS c = false := by
  by_contra hc
  rcases space_cases (Bool.of_not_eq_false hc) with h' | h' | h' | h' | h' | h' <;>
    subst h' <;> simp_all [isWordDot, isWordChar]

theorem quote_not_space {c : Char} (h : isQuote c = true) : isSpaceJS c = false := by
  rcases quote_cases h with h' | h' | h' <;> subst h' <;> decide

theorem space_toLower_ne_s {c : Char} (h : isSpaceJS c = true) :
    (c.toLower == 's') = false := by
  rcases space_cases h with h' | h' | h' | h' | h' | h' <;> subst h' <;> decide

/-! ## Scan-loop lemmas -/

/-- The character preceding a scan position: the last character of the
consumed portion `a`, or the initial context. -/
def prevOf (fallback : Option Char) (a : List Char) : Option Char :=
  match a.getLast? with
  | some c => some c
  | none => fallback

theorem prevOf_cons (p : Option Char) (c : Char) (a : List Char) :
    prevOf p (c :: a) = prevOf (some c) a := by
  cases a with
  | nil => simp [prevOf]
  | cons d l =>
    cases hg : (d :: l).getLast? with
    | none => simp at hg
    | some x => simp [prevOf, List.getLast?_cons_cons, hg]

theorem scanGo_ne_nil {m : Option Char → List Char → Option Nat} :
    ∀ (a b : List Char) (prev : Option Char) (pos fuel len : Nat),
      fuel ≥ (a ++ b).length + 1 → m (prevOf prev a) b = some len →
      scanGo m fuel prev (a ++ b) pos ≠ [] := by
  intro a
  induction a with
  | nil =>
    intro b prev pos fuel len hf hm
    simp only [prevOf, List.getLast?_nil] at hm
    cases fuel with
    | zero => simp at hf
    | succ f =>
      cases b with
      | nil => simp [scanGo, hm]
      | cons c cs => simp [scanGo, hm]
  | cons c a' ih =>
    intro b prev pos fuel len hf hm
    cases fuel with
    | zero => simp at hf
    | succ f =>
      show scanGo m (f + 1) prev (c :: (a' ++ b)) pos ≠ []
      cases hmn : m prev (c :: (a' ++ b)) with
      | some l2 => simp [scanGo, hmn]
      | none =>
        simp only [scanGo, hmn]
        apply ih b (some c) (pos + 1) f len
        · simp only [List.cons_append, List.length_cons] at hf
          omega
        · rw [← prevOf_cons prev c a']
          exact hm

theorem findMatches_ne_nil {m : Option Char → List Char → Option Nat}
    {a b : List Char} {len : Nat} (hm : m (prevOf none a) b = some len) :
    findMatches m (a ++ b) ≠ [] :=
  scanGo_ne_nil a b none 0 ((a ++ b).length + 1) len (Nat.le_refl _) hm

theorem scanGo_eq_nil {m : Option Char → List Char → Option Nat} :
    ∀ (fuel : Nat) (s : List Char) (prev : Option Char) (pos : Nat),
      (∀ (prev' : Option Char) (s' : List Char), List.Sublist s' s → m prev' s' = none) →
      scanGo m fuel prev s pos = [] := by
  intro fuel
  induction fuel with
  | zero => intro s prev pos _; rfl
  | succ f ih =>
    intro s prev pos h
    cases s with
    | nil => simp [scanGo, h prev [] (List.Sublist.refl [])]
    | cons c cs =>
      simp only [scanGo, h prev (c :: cs) (List.Sublist.refl _)]
      exact ih cs (some c) (pos + 1) fun prev' s' hs =>
        h prev' s' (hs.trans (List.sublist_cons_self c cs))

theorem findMatches_eq_nil {m : Option Char → List Char → Option Nat} {t : List Char}
    (h : ∀ (prev' : Option Char) (s' : List Char), List.Sublist s' t → m prev' s' = none) :
    findMatches m t = [] :=
  scanGo_eq_nil (t.length + 1) t none 0 h

/-! ## C3: the security score -/

/-- The claim's deduction formula: 10 per critical, 5 per high, 2 per
medium and 1 per low finding. -/
def specDeduction (issues : List SecurityIssue) : Int :=
  10 * (issues.countP (fun i => i.severity == .critical) : Int) +
  5 * (issues.countP (fun i => i.severity == .high) : Int) +
  2 * (issues.countP (fun i => i.severity == .medium) : Int) +
  1 * (issues.countP (fun i => i.severity == .low) : Int)

theorem foldl_weight (issues : List SecurityIssue) (a : Int) :
    issues.foldl (fun acc issue => acc + severityWeight issue.severity) a =
      a + specDeduction issues := by
  induction issues generalizing a with
  | nil => simp [specDeduction]
  | cons x xs ih =>
    rw [List.foldl_cons, ih]
    cases h : x.severity <;>
      simp [specDeduction, List.countP_cons, h, severityWeight] <;> ring

theorem specDeduction_nonneg (issues : List SecurityIssue) : 0 ≤ specDeduction issues := by
  unfold specDeduction
  positivity

theorem specDeduction_append (issues : List SecurityIssue) (i : SecurityIssue) :
    specDeduction (issues ++ [i]) = specDeduction issues + severityWeight i.severity := by
  cases h : i.severity <;>
    simp [specDeduction, List.countP_append, List.countP_cons, h, severityWeight] <;>
    ring

theorem calculateSecurityScore_eq (issues : List SecurityIssue) :
    calculateSecurityScore issues = max 0 (100 - min (specDeduction issues) 100) := by
  cases issues with
  | nil => simp [calculateSecurityScore, specDeduction]
  | cons x xs =>
    simp only [calculateSecurityScore, List.isEmpty_cons, if_neg]
    rw [foldl_weight]
    simp

/-- C3: the health score equals 100 minus 10 per critical, 5 per high, 2 per
medium and 1 per low finding, with the deduction clamped to 100 and the
result floored at 0; the empty list scores 100, the score always lies in
[0, 100], appending a finding never increases it, and one critical plus one
high plus one medium finding score 83. -/
theorem c3_security_score :
    (∀ issues, calculateSecurityScore issues =
      max 0 (100 - min (specDeduction issues) 100)) ∧
    calculateSecurityScore [] = 100 ∧
    (∀ issues, 0 ≤ calculateSecurityScore issues ∧ calculateSecurityScore issues ≤ 100) ∧
    (∀ issues i, calculateSecurityScore (issues ++ [i]) ≤ calculateSecurityScore issues) ∧
    calculateSecurityScore
      [⟨"a", .critical, 1, 1, "f"⟩, ⟨"b", .high, 1, 1, "f"⟩, ⟨"c", .medium, 1, 1, "f"⟩] = 83 := by
  refine ⟨calculateSecurityScore_eq, by decide, ?_, ?_, by decide⟩
  · intro issues
    rw [calculateSecurityScore_eq]
    have := specDeduction_nonneg issues
    omega
  · intro issues i
    rw [calculateSecurityScore_eq, calculateSecurityScore_eq, specDeduction_append]
    have h1 := specDeduction_nonneg issues
    have h2 : 1 ≤ severityWeight i.severity := by
      cases i.severity <;> simp [severityWeight]
    omega

/-! ## C5: search never throws -/

/-- C5: `searchSimilarDocuments` always returns normally; with an
uninitialized index or an absent vector store it returns the keyword
fallback, and it also returns the keyword fallback whenever the similarity
backend fails. -/
theorem c5_search_never_throws (kb : KnowledgeBase) (query : String) (k : Nat) :
    (∃ r, searchSimilarDocuments kb query k = Except.ok r) ∧
    (kb.isInitialized = false ∨ kb.vectorStore = none →
      searchSimilarDocuments kb query k =
        .ok (simpleKeywordSearch kb.documents query k)) ∧
    (∀ vs e, kb.vectorStore = some vs → vs.similaritySearch query k = .error e →
      searchSimilarDocuments kb query k =
        .ok (simpleKeywordSearch kb.documents query k)) := by
  cases hinit : kb.isInitialized with
  | false =>
    have hr : searchSimilarDocuments kb query k =
        .ok (simpleKeywordSearch kb.documents query k) := by
      simp [searchSimilarDocuments, hinit]
    exact ⟨⟨_, hr⟩, fun _ => hr, fun _ _ _ _ => hr⟩
  | true =>
    cases hvs : kb.vectorStore with
    | none =>
      have hr : searchSimilarDocuments kb query k =
          .ok (simpleKeywordSearch kb.documents query k) := by
        simp [searchSimilarDocuments, hinit, hvs]
      exact ⟨⟨_, hr⟩, fun _ => hr, fun vs e hvs' _ => by simp at hvs'⟩
    | some vs =>
      cases hss : vs.similaritySearch query k with
      | ok rs =>
        have hr : searchSimilarDocuments kb query k =
            .ok (rs.map fun d => ⟨d.pageContent, d.metadata⟩) := by
          simp [searchSimilarDocuments, hinit, hvs, hss]
        refine ⟨⟨_, hr⟩, ?_, fun vs' e hvs' hss' => ?_⟩
        · rintro (h | h) <;> simp at h
        · injection hvs' with hv
          subst hv
          rw [hss] at hss'
          cases hss'
      | error e0 =>
        have hr : searchSimilarDocuments kb query k =
            .ok (simpleKeywordSearch kb.documents query k) := by
          simp [searchSimilarDocuments, hinit, hvs, hss]
        refine ⟨⟨_, hr⟩, ?_, fun vs' e hvs' hss' => hr⟩
        rintro (h | h) <;> simp at h

/-- A knowledge base whose similarity backend always fails. -/
def kbFailing : KnowledgeBase where
  documents := []
  vectorStore := some ⟨fun _ _ => .error "backend down"⟩
  isInitialized := true

/-- A knowledge base whose index was never built. -/
def kbUninitialized : KnowledgeBase where
  documents := []
  vectorStore := none
  isInitialized := false

theorem c5_search_never_throws_witness :
    searchSimilarDocuments kbFailing "injection" 2 =
      .ok (simpleKeywordSearch kbFailing.documents "injection" 2) ∧
    searchSimilarDocuments kbUninitialized "injection" 2 =
      .ok (simpleKeywordSearch kbUninitialized.documents "injection" 2) :=
  ⟨(c5_search_never_throws kbFailing "injection" 2).2.2
      ⟨fun _ _ => .error "backend down"⟩ "backend down" rfl rfl,
   (c5_search_never_throws kbUninitialized "injection" 2).2.1 (Or.inl rfl)⟩

/-! ## C6: per-rule failure isolation -/

/-- The diagnostics one rule contributes to a pass: its findings, or nothing
when its matcher raises. -/
def contribOf (rule : SecurityRule) (text : String) : List Diagnostic :=
  match rule.validate text with
  | .ok ds => ds
  | .error _ => []

theorem runOver_eq_flatten (rules : List SecurityRule) (text : String) :
    runSecurityRulesOver rules text = (rules.map fun r => contribOf r text).flatten := by
  have aux : ∀ (rs : List SecurityRule) (acc : List Diagnostic),
      rs.foldl (fun acc rule =>
        match rule.validate text with
        | .ok ds => acc ++ ds
        | .error _ => acc) acc = acc ++ (rs.map fun r => contribOf r text).flatten := by
    intro rs
    induction rs with
    | nil => intro acc; simp
    | cons r rs ih =>
      intro acc
      rw [List.foldl_cons, List.map_cons, List.flatten_cons]
      cases h : r.validate text with
      | ok ds => rw [ih]; simp [contribOf, h]
      | error e => rw [ih]; simp [contribOf, h]
  exact (aux rules []).trans (by simp)

/-- C6: a rule whose matcher throws contributes an empty finding set and the
remaining rules' findings are unchanged. -/
theorem c6_rule_failure_isolated (pre post : List SecurityRule) (rule : SecurityRule)
    (text : String) (e : String) (h : rule.validate text = .error e) :
    runSecurityRulesOver (pre ++ rule :: post) text =
      runSecurityRulesOver pre text ++ runSecurityRulesOver post text ∧
    runSecurityRulesOver (pre ++ rule :: post) text =
      runSecurityRulesOver (pre ++ post) text := by
  have hc : contribOf rule text = [] := by simp [contribOf, h]
  constructor <;> simp [runOver_eq_flatten, hc]

/-- A rule whose matcher always raises, for the witness below. -/
def throwingRule : SecurityRule where
  id := "security-throwing"
  name := "Throwing Rule"
  description := "a matcher that always raises"
  severity := .Error
  validate := fun _ => .error "boom"

theorem c6_rule_failure_isolated_witness :
    runSecurityRulesOver [sqlInjectionRule, throwingRule, xssVulnerabilityRule]
        "element.innerHTML = userInput;" =
      runSecurityRulesOver [sqlInjectionRule, xssVulnerabilityRule]
        "element.innerHTML = userInput;" :=
  (c6_rule_failure_isolated [sqlInjectionRule] [xssVulnerabilityRule] throwingRule
    "element.innerHTML = userInput;" "boom" rfl).2

/-! ## C8: corpus loading -/

/-- C8 (amended): `addDocuments` appends and invalidates the index, while
`loadFromFile` replaces the corpus with the parsed documents, leaves the
initialization flag and vector store untouched, and on a failed load returns
`[]` leaving the state unchanged. -/
theorem c8_corpus_loading :
    (∀ kb docs, (addDocuments kb docs).documents = kb.documents ++ docs ∧
      (addDocuments kb docs).isInitialized = false ∧
      (addDocuments kb docs).vectorStore = kb.vectorStore) ∧
    (∀ kb items, (loadFromFile kb (.ok items)).2.documents =
        items.map (fun item => ⟨item.pageContent, item.metadata⟩) ∧
      (loadFromFile kb (.ok items)).1 =
        items.map (fun item => ⟨item.pageContent, item.metadata⟩) ∧
      (loadFromFile kb (.ok items)).2.isInitialized = kb.isInitialized ∧
      (loadFromFile kb (.ok items)).2.vectorStore = kb.vectorStore) ∧
    (∀ kb e, loadFromFile kb (.error e) = ([], kb)) :=
  ⟨fun _ _ => ⟨rfl, rfl, rfl⟩, fun _ _ => ⟨rfl, rfl, rfl, rfl⟩, fun _ _ => rfl⟩

/-- A knowledge base holding one document with a built index. -/
def kbLoaded : KnowledgeBase where
  documents := [⟨"old document", { category := "xss", severity := "high" }⟩]
  vectorStore := none
  isInitialized := true

def newRawDoc : RawDoc :=
  ⟨"new document", { category := "sql-injection", severity := "high" }⟩

/-- C8 counterexample: on a knowledge base already holding a document with
`isInitialized = true`, a successful `loadFromFile` does not append to the
corpus and does not reset the initialization flag. -/
theorem c8_counterexample :
    (loadFromFile kbLoaded (.ok [newRawDoc])).2.documents ≠
      kbLoaded.documents ++ [⟨newRawDoc.pageContent, newRawDoc.metadata⟩] ∧
    (loadFromFile kbLoaded (.ok [newRawDoc])).2.isInitialized ≠ false := by
  constructor <;> decide

/-! ## C10: the completion short-circuit -/

/-- C10 (amended): with the LLM initialized, `generateCodeCompletion`
short-circuits to the empty candidate list whenever the *entire document
text before the cursor*, after trimming, is shorter than 3 characters. -/
theorem c10_short_circuit (invoke : String → String → Except String String)
    (text : String) (offsetAt : Nat)
    (h : (trimJS ⟨text.data.take offsetAt⟩).length < 3) :
    generateCodeCompletion true invoke text offsetAt = [] := by
  simp [generateCodeCompletion, h]

theorem c10_short_circuit_witness :
    (trimJS ⟨"ab".data.take 2⟩).length < 3 ∧
    generateCodeCompletion true (fun _ _ => .ok "suggestion") "ab" 2 = [] :=
  ⟨by decide, c10_short_circuit (fun _ _ => .ok "suggestion") "ab" 2 (by decide)⟩

def llmResponseStub : String := "const a = 1\nconst b = 2\nconst c = 3"

/-! ## C1: the SQL-injection rule -/

theorem matchAlt_sql_select (rest : List Char) :
    matchAltCI sqlKeywords ("SELECT".data ++ rest) = some (6, rest) := by
  have h := litCI_self "SELECT".data rest
  simp only [sqlKeywords, matchAltCI, h]
  rfl

theorem matchAlt_sql_insert (rest : List Char) :
    matchAltCI sqlKeywords ("INSERT".data ++ rest) = some (6, rest) := by
  have h0 : litCI "SELECT".data ("INSERT".data ++ rest) = none :=
    litCI_none_of_head _ _ (by decide) rest
  have h := litCI_self "INSERT".data rest
  simp only [sqlKeywords, matchAltCI, h0, h]
  rfl

theorem matchAlt_sql_update (rest : List Char) :
    matchAltCI sqlKeywords ("UPDATE".data ++ rest) = some (6, rest) := by
  have h0 : litCI "SELECT".data ("UPDATE".data ++ rest) = none :=
    litCI_none_of_head _ _ (by decide) rest
  have h1 : litCI "INSERT".data ("UPDATE".data ++ rest) = none :=
    litCI_none_of_head _ _ (by decide) rest
  have h := litCI_self "UPDATE".data rest
  simp only [sqlKeywords, matchAltCI, h0, h1, h]
  rfl

theorem matchAlt_sql_delete (rest : List Char) :
    matchAltCI sqlKeywords ("DELETE".data ++ rest) = some (6, rest) := by
  have h0 : litCI "SELECT".data ("DELETE".data ++ rest) = none :=
    litCI_none_of_head _ _ (by decide) rest
  have h1 : litCI "INSERT".data ("DELETE".data ++ rest) = none :=
    litCI_none_of_head _ _ (by decide) rest
  have h2 : litCI "UPDATE".data ("DELETE".data ++ rest) = none :=
    litCI_none_of_head _ _ (by decide) rest
  have h := litCI_self "DELETE".data rest
  simp only [sqlKeywords, matchAltCI, h0, h1, h2, h]
  rfl

theorem matchAlt_sql_drop (rest : List Char) :
    matchAltCI sqlKeywords ("DROP".data ++ rest) = some (4, rest) := by
  have h0 : litCI "SELECT".data ("DROP".data ++ rest) = none :=
    litCI_none_of_head _ _ (by decide) rest
  have h1 : litCI "INSERT".data ("DROP".data ++ rest) = none :=
    litCI_none_of_head _ _ (by decide) rest
  have h2 : litCI "UPDATE".data ("DROP".data ++ rest) = none :=
    litCI_none_of_head _ _ (by decide) rest
  have h3 : litCI "DELETE".data ("DROP".data ++ rest) = none :=
    litCI_none_of_second _ _ (by decide) rest
  have h := litCI_self "DROP".data rest
  simp only [sqlKeywords, matchAltCI, h0, h1, h2, h3, h]
  rfl

theorem plusTail_isSome {c v d : List Char} (hc : ∀ x ∈ c, isSpaceJS x = true)
    (hv : v ≠ []) (hw : ∀ x ∈ v, isWordDot x = true) :
    (plusTail ('+' :: (c ++ (v ++ d)))).isSome := by
  cases v with
  | nil => exact absurd rfl hv
  | cons vh vt =>
    have hdrop : (c ++ vh :: (vt ++ d)).dropWhile isSpaceJS = vh :: (vt ++ d) := by
      rw [dropWhile_append_of_all _ hc]
      exact dropWhile_cons_of_neg _ (wordDot_not_space (hw vh (by simp)))
    have htake : (vh :: (vt ++ d)).takeWhile isWordDot =
        vh :: (vt ++ d).takeWhile isWordDot := by
      simp [List.takeWhile_cons, hw vh (by simp)]
    simp only [List.cons_append, plusTail, beq_self_eq_true, if_true, hdrop, htake]
    simp

theorem dotStarPlus_of_plusTail {s : List Char} (h : (plusTail s).isSome) :
    (dotStarPlus s).isSome := by
  cases s with
  | nil => simp [plusTail] at h
  | cons c cs =>
    simp only [dotStarPlus]
    exact hOrElse_isSome_right h

theorem dotStarPlus_append {b s : List Char}
    (hb : ∀ x ∈ b, isNotNl x = true) (hs : (dotStarPlus s).isSome) :
    (dotStarPlus (b ++ s)).isSome := by
  induction b with
  | nil => exact hs
  | cons x b' ih =>
    have htail := ih fun y hy => hb y (by simp [hy])
    obtain ⟨n, hn⟩ := Option.isSome_iff_exists.mp htail
    simp only [List.cons_append, dotStarPlus, hb x (by simp), if_true]
    exact hOrElse_isSome_left (by simp [hn])

theorem sqlPat1_isSome {prev : Option Char} {kw b c v d : List Char}
    (hkw : kw ∈ sqlKeywords) (hprev : bOk prev = true)
    (hb : ∀ x ∈ b, isNotNl x = true)
    (hwe : wordEndOk (b ++ '+' :: (c ++ (v ++ d))) = true)
    (hc : ∀ x ∈ c, isSpaceJS x = true) (hv : v ≠ [])
    (hw : ∀ x ∈ v, isWordDot x = true) :
    (sqlPat1 prev (kw ++ (b ++ '+' :: (c ++ (v ++ d))))).isSome := by
  have hdsp : (dotStarPlus (b ++ '+' :: (c ++ (v ++ d)))).isSome :=
    dotStarPlus_append hb (dotStarPlus_of_plusTail (plusTail_isSome hc hv hw))
  obtain ⟨n, hn⟩ := Option.isSome_iff_exists.mp hdsp
  have hma : matchAltCI sqlKeywords (kw ++ (b ++ '+' :: (c ++ (v ++ d)))) =
      some (kw.length, b ++ '+' :: (c ++ (v ++ d))) := by
    fin_cases hkw
    · exact matchAlt_sql_select _
    · exact matchAlt_sql_insert _
    · exact matchAlt_sql_update _
    · exact matchAlt_sql_delete _
    · exact matchAlt_sql_drop _
  simp [sqlPat1, hprev, hma, hwe, hn]

theorem plusTail_plus_mem {s : List Char} {n : Nat} (h : plusTail s = some n) :
    '+' ∈ s := by
  cases s with
  | nil => simp [plusTail] at h
  | cons c cs =>
    by_cases hc : (c == '+') = true
    · have : c = '+' := by simpa using hc
      subst this
      exact List.mem_cons_self _ _
    · rw [plusTail, if_neg (by simpa using hc)] at h
      cases h

theorem dotStarPlus_plus_mem {s : List Char} : ∀ {n : Nat},
    dotStarPlus s = some n → '+' ∈ s := by
  induction s with
  | nil => intro n h; simp [dotStarPlus] at h
  | cons c cs ih =>
    intro n h
    simp only [dotStarPlus] at h
    rcases hOrElse_eq_some h with h1 | ⟨_, h2⟩
    · by_cases hc : isNotNl c = true
      · rw [if_pos hc] at h1
        obtain ⟨m, hm, _⟩ := Option.map_eq_some'.mp h1
        exact List.mem_cons_of_mem c (ih hm)
      · rw [if_neg hc] at h1
        cases h1
    · exact plusTail_plus_mem h2

theorem sqlPat1_plus_mem {prev : Option Char} {s : List Char} {n : Nat}
    (h : sqlPat1 prev s = some n) : '+' ∈ s := by
  simp only [sqlPat1] at h
  split at h
  · cases hma : matchAltCI sqlKeywords s with
    | none => rw [hma] at h; cases h
    | some p =>
      obtain ⟨klen, rest⟩ := p
      rw [hma] at h
      simp only at h
      split at h
      · obtain ⟨m, hm, _⟩ := Option.map_eq_some'.mp h
        exact ((matchAltCI_suffix hma).sublist).mem (dotStarPlus_plus_mem hm)
      · cases h
  · cases h

theorem sqlCallPat_plus_mem {fname : List Char} {prev : Option Char} {s : List Char}
    {n : Nat} (h : sqlCallPat fname prev s = some n) : '+' ∈ s := by
  simp only [sqlCallPat] at h
  split at h
  · cases hl : litCI fname s with
    | none => rw [hl] at h; cases h
    | some r1 =>
      rw [hl] at h
      simp only at h
      cases hr2 : r1.dropWhile isSpaceJS with
      | nil => rw [hr2] at h; cases h
      | cons c0 r3 =>
        rw [hr2] at h
        split at h
        · rename_i r3' heq
          injection heq with he1 he2
          subst he2
          obtain ⟨m, hm, _⟩ := Option.map_eq_some'.mp h
          have h4 : '+' ∈ c0 :: r3 :=
            List.mem_cons_of_mem c0 ((List.dropWhile_sublist _).mem (dotStarPlus_plus_mem hm))
          have h5 : '+' ∈ r1 := by
            rw [← hr2] at h4
            exact (List.dropWhile_sublist _).mem h4
          exact ((litCI_suffix hl).sublist).mem h5
        · cases h
  · cases h

theorem sqlDiagnostics_nil {text : String} (h : '+' ∉ text.data) :
    sqlInjectionDiagnostics text = [] := by
  have h1 : findMatches sqlPat1 text.data = [] :=
    findMatches_eq_nil fun prev' s' hs => by
      cases hp : sqlPat1 prev' s' with
      | none => rfl
      | some n => exact absurd (hs.mem (sqlPat1_plus_mem hp)) h
  have h2 : findMatches (sqlCallPat "execute".data) text.data = [] :=
    findMatches_eq_nil fun prev' s' hs => by
      cases hp : sqlCallPat "execute".data prev' s' with
      | none => rfl
      | some n => exact absurd (hs.mem (sqlCallPat_plus_mem hp)) h
  have h3 : findMatches (sqlCallPat "execSql".data) text.data = [] :=
    findMatches_eq_nil fun prev' s' hs => by
      cases hp : sqlCallPat "execSql".data prev' s' with
      | none => rfl
      | some n => exact absurd (hs.mem (sqlCallPat_plus_mem hp)) h
  simp [sqlInjectionDiagnostics, diagsOf, h1, h2, h3]

/-- The SQL-injection findings among a pass's diagnostics, identified by the
rule's message. -/
def sqlInjectionFindings (text : String) : List Diagnostic :=
  (runSecurityRules text).filter fun dg => dg.message == sqlMsg

/-- The XSS findings among a pass's diagnostics. -/
def xssFindings (text : String) : List Diagnostic :=
  (runSecurityRules text).filter fun dg => dg.message == xssMsg

/-- The sensitive-data findings among a pass's diagnostics. -/
def sensitiveFindings (text : String) : List Diagnostic :=
  (runSecurityRules text).filter fun dg => dg.message == sensMsg

theorem runSecurityRules_parts (text : String) :
    runSecurityRules text =
      (sqlInjectionDiagnostics text ++ xssDiagnostics text) ++
        sensitiveDataDiagnostics text := rfl

theorem filter_diagsOf_eq {sev : DiagnosticSeverity} {msg : String}
    {m : Option Char → List Char → Option Nat} {t : List Char} {msg' : String}
    (h : (msg == msg') = true) :
    (diagsOf sev msg m t).filter (fun dg => dg.message == msg') = diagsOf sev msg m t := by
  apply List.filter_eq_self.mpr
  intro dg hdg
  simp only [diagsOf, List.mem_map] at hdg
  obtain ⟨p, _, rfl⟩ := hdg
  exact h

theorem filter_diagsOf_ne {sev : DiagnosticSeverity} {msg : String}
    {m : Option Char → List Char → Option Nat} {t : List Char} {msg' : String}
    (h : (msg == msg') = false) :
    (diagsOf sev msg m t).filter (fun dg => dg.message == msg') = [] := by
  apply List.filter_eq_nil_iff.mpr
  intro dg hdg
  simp only [diagsOf, List.mem_map] at hdg
  obtain ⟨p, _, rfl⟩ := hdg
  simp [h]

theorem sqlInjectionFindings_eq (text : String) :
    sqlInjectionFindings text = sqlInjectionDiagnostics text := by
  unfold sqlInjectionFindings
  rw [runSecurityRules_parts]
  unfold sqlInjectionDiagnostics xssDiagnostics sensitiveDataDiagnostics
  simp only [List.filter_append]
  rw [filter_diagsOf_eq (by decide), filter_diagsOf_eq (by decide),
    filter_diagsOf_eq (by decide), filter_diagsOf_ne (by decide),
    filter_diagsOf_ne (by decide), filter_diagsOf_ne (by decide),
    filter_diagsOf_ne (by decide), filter_diagsOf_ne (by decide)]
  simp

theorem sensitiveFindings_eq (text : String) :
    sensitiveFindings text = sensitiveDataDiagnostics text := by
  unfold sensitiveFindings
  rw [runSecurityRules_parts]
  unfold sqlInjectionDiagnostics xssDiagnostics sensitiveDataDiagnostics
  simp only [List.filter_append]
  rw [filter_diagsOf_ne (by decide), filter_diagsOf_ne (by decide),
    filter_diagsOf_ne (by decide), filter_diagsOf_ne (by decide),
    filter_diagsOf_ne (by decide), filter_diagsOf_ne (by decide),
    filter_diagsOf_eq (by decide), filter_diagsOf_eq (by decide)]
  simp

/-- C1: every text containing a SQL keyword (as a whole word) followed on
the same line by `+`-concatenation with a variable yields at least one
SQL-injection finding; a text containing no `+` (in particular the
`?`-placeholder/parameter-array style) yields none; and the canonical
concatenated query yields exactly one finding, with `Error` severity. -/
theorem c1_sql_injection_rule :
    (∀ (a kw b c v d : List Char), kw ∈ sqlKeywords →
      bOk (prevOf none a) = true →
      (∀ x ∈ b, isNotNl x = true) →
      wordEndOk (b ++ '+' :: (c ++ (v ++ d))) = true →
      (∀ x ∈ c, isSpaceJS x = true) → v ≠ [] → (∀ x ∈ v, isWordDot x = true) →
      1 ≤ (sqlInjectionFindings ⟨a ++ (kw ++ (b ++ '+' :: (c ++ (v ++ d))))⟩).length) ∧
    (∀ text : String, '+' ∉ text.data → sqlInjectionFindings text = []) ∧
    sqlInjectionFindings "const query = \"SELECT * FROM users WHERE username = ?\";\n                   db.query(query, [username]);" = [] ∧
    runSecurityRules "const query = \"SELECT * FROM users WHERE username = '\" + username + \"'\";" =
      [⟨.Error, 15, 65, sqlMsg, "security-assistant"⟩] := by
  refine ⟨?_, ?_, by decide, by decide⟩
  · intro a kw b c v d hkw hprev hb hwe hc hv hw
    rw [sqlInjectionFindings_eq]
    obtain ⟨n, hn⟩ := Option.isSome_iff_exists.mp
      (sqlPat1_isSome hkw hprev hb hwe hc hv hw)
    have hne : findMatches sqlPat1 (a ++ (kw ++ (b ++ '+' :: (c ++ (v ++ d))))) ≠ [] :=
      findMatches_ne_nil hn
    have hpos : 0 < (findMatches sqlPat1 (a ++ (kw ++ (b ++ '+' :: (c ++ (v ++ d)))))).length :=
      List.length_pos.mpr hne
    simp only [sqlInjectionDiagnostics, diagsOf, List.length_append, List.length_map]
    omega
  · intro text h
    rw [sqlInjectionFindings_eq]
    exact sqlDiagnostics_nil h

theorem c1_sql_injection_rule_witness :
    1 ≤ (sqlInjectionFindings ⟨"const query = \"".data ++ ("SELECT".data ++
      (" * FROM users WHERE username = '\" ".data ++ '+' ::
        (" ".data ++ ("username".data ++ " + \"'\";".data))))⟩).length ∧
    sqlInjectionFindings "db.query(\"SELECT * FROM t WHERE c = ?\", [v]);" = [] :=
  ⟨c1_sql_injection_rule.1 "const query = \"".data "SELECT".data
      " * FROM users WHERE username = '\" ".data " ".data "username".data " + \"'\";".data
      (by decide) (by decide) (by decide) (by decide) (by decide) (by decide) (by decide),
   c1_sql_injection_rule.2.1 "db.query(\"SELECT * FROM t WHERE c = ?\", [v]);" (by decide)⟩

/-! ## C9: the sensitive-data rule -/

/-- The exact (lowercase) names matched by the secret-name group
`(password|api[_-]?key|secret|token|credential)`. -/
def secretNames : List (List Char) :=
  ["password".data, "api_key".data, "api-key".data, "apikey".data,
   "secret".data, "token".data, "credential".data]

theorem apiKeyAlt_api_key (rest : List Char) :
    apiKeyAlt ("api_key".data ++ rest) = some (7, rest) := by
  have ha : litCI "api".data ("api_key".data ++ rest) = some ('_' :: ("key".data ++ rest)) :=
    litCI_self "api".data ('_' :: ("key".data ++ rest))
  have hk := litCI_self "key".data rest
  simp only [apiKeyAlt, ha, hk]
  rfl

theorem apiKeyAlt_api_dash_key (rest : List Char) :
    apiKeyAlt ("api-key".data ++ rest) = some (7, rest) := by
  have ha : litCI "api".data ("api-key".data ++ rest) = some ('-' :: ("key".data ++ rest)) :=
    litCI_self "api".data ('-' :: ("key".data ++ rest))
  have hk := litCI_self "key".data rest
  simp only [apiKeyAlt, ha, hk]
  rfl

theorem apiKeyAlt_apikey (rest : List Char) :
    apiKeyAlt ("apikey".data ++ rest) = some (6, rest) := by
  have ha : litCI "api".data ("apikey".data ++ rest) = some ("key".data ++ rest) :=
    litCI_self "api".data ("key".data ++ rest)
  have hk := litCI_self "key".data rest
  simp only [apiKeyAlt, ha]
  simp only [show ("key".data ++ rest) = 'k' :: ("ey".data ++ rest) from rfl]
  simp only [show (('k' == '_') || ('k' == '-')) = false from rfl, Bool.false_eq_true,
    if_false]
  simp only [show 'k' :: ("ey".data ++ rest) = "key".data ++ rest from rfl, hk]
  rfl

theorem apiKeyAlt_none_of_head {s : List Char} (rest : List Char) {y : Char} {ys : List Char}
    (hs : s = (y :: ys) ++ rest) (h : (('a' : Char).toLower == y.toLower) = false) :
    apiKeyAlt s = none := by
  subst hs
  have ha : litCI "api".data ((y :: ys) ++ rest) = none := litCI_none_of_head _ _ h rest
  simp only [apiKeyAlt, ha]

theorem kwSecret_self {name : List Char} (hname : name ∈ secretNames) (rest : List Char) :
    kwSecret (name ++ rest) = some (name.length, rest) := by
  fin_cases hname
  · have h := litCI_self "password".data rest
    simp only [kwSecret, h]
    rfl
  · have h0 : litCI "password".data ("api_key".data ++ rest) = none :=
      litCI_none_of_head _ _ (by decide) rest
    simp only [kwSecret, h0, apiKeyAlt_api_key rest]
    rfl
  · have h0 : litCI "password".data ("api-key".data ++ rest) = none :=
      litCI_none_of_head _ _ (by decide) rest
    simp only [kwSecret, h0, apiKeyAlt_api_dash_key rest]
    rfl
  · have h0 : litCI "password".data ("apikey".data ++ rest) = none :=
      litCI_none_of_head _ _ (by decide) rest
    simp only [kwSecret, h0, apiKeyAlt_apikey rest]
    rfl
  · have h0 : litCI "password".data ("secret".data ++ rest) = none :=
      litCI_none_of_head _ _ (by decide) rest
    have h1 : apiKeyAlt ("secret".data ++ rest) = none :=
      apiKeyAlt_none_of_head rest rfl (by decide)
    have h := litCI_self "secret".data rest
    simp only [kwSecret, h0, h1, h]
    rfl
  · have h0 : litCI "password".data ("token".data ++ rest) = none :=
      litCI_none_of_head _ _ (by decide) rest
    have h1 : apiKeyAlt ("token".data ++ rest) = none :=
      apiKeyAlt_none_of_head rest rfl (by decide)
    have h2 : litCI "secret".data ("token".data ++ rest) = none :=
      litCI_none_of_head _ _ (by decide) rest
    have h := litCI_self "token".data rest
    simp only [kwSecret, h0, h1, h2, h]
    rfl
  · have h0 : litCI "password".data ("credential".data ++ rest) = none :=
      litCI_none_of_head _ _ (by decide) rest
    have h1 : apiKeyAlt ("credential".data ++ rest) = none :=
      apiKeyAlt_none_of_head rest rfl (by decide)
    have h2 : litCI "secret".data ("credential".data ++ rest) = none :=
      litCI_none_of_head _ _ (by decide) rest
    have h3 : litCI "token".data ("credential".data ++ rest) = none :=
      litCI_none_of_head _ _ (by decide) rest
    have h := litCI_self "credential".data rest
    simp only [kwSecret, h0, h1, h2, h3, h]
    rfl

theorem secretAssign_isSome {b c v d : List Char} {q : Char}
    (hb : ∀ x ∈ b, isSpaceJS x = true) (hc : ∀ x ∈ c, isSpaceJS x = true)
    (hq : isQuote q = true) (hv : v ≠ []) (hvq : ∀ x ∈ v, isQuote x = false)
    (hla : startsWithCI "process.env".data (v ++ q :: d) = false) :
    (secretAssign (b ++ '=' :: (c ++ q :: (v ++ q :: d)))).isSome := by
  have hd1 : (b ++ '=' :: (c ++ q :: (v ++ q :: d))).dropWhile isSpaceJS =
      '=' :: (c ++ q :: (v ++ q :: d)) := by
    rw [dropWhile_append_of_all _ hb]
    exact dropWhile_cons_of_neg _ (by decide)
  have hd2 : (c ++ q :: (v ++ q :: d)).dropWhile isSpaceJS = q :: (v ++ q :: d) := by
    rw [dropWhile_append_of_all _ hc]
    exact dropWhile_cons_of_neg _ (quote_not_space hq)
  have hbody : (v ++ q :: d).takeWhile (fun x => !isQuote x) = v := by
    rw [takeWhile_append_of_all _ (fun x hx => by simp [hvq x hx])]
    rw [takeWhile_cons_of_neg _ (by simp [hq])]
    simp
  have hdrop3 : (v ++ q :: d).dropWhile (fun x => !isQuote x) = q :: d := by
    rw [dropWhile_append_of_all _ (fun x hx => by simp [hvq x hx])]
    exact dropWhile_cons_of_neg _ (by simp [hq])
  cases v with
  | nil => exact absurd rfl hv
  | cons vh vt =>
    simp only [secretAssign, hd1, hd2, hq, if_true, hla, Bool.false_eq_true, if_false,
      hbody, hdrop3, List.isEmpty_cons, beq_self_eq_true]
    simp

theorem sensPat1_isSome {prev : Option Char} {name b c v d : List Char} {q : Char}
    (hname : name ∈ secretNames) (hprev : bOk prev = true)
    (hb : ∀ x ∈ b, isSpaceJS x = true) (hc : ∀ x ∈ c, isSpaceJS x = true)
    (hq : isQuote q = true) (hv : v ≠ []) (hvq : ∀ x ∈ v, isQuote x = false)
    (hla : startsWithCI "process.env".data (v ++ q :: d) = false) :
    (sensPat1 prev (name ++ (b ++ '=' :: (c ++ q :: (v ++ q :: d))))).isSome := by
  obtain ⟨n, hsa⟩ := Option.isSome_iff_exists.mp (secretAssign_isSome hb hc hq hv hvq hla)
  have hk := kwSecret_self hname (b ++ '=' :: (c ++ q :: (v ++ q :: d)))
  cases b with
  | nil =>
    simp only [List.nil_append] at hsa hk
    simp only [sensPat1, hprev, if_true, List.nil_append]
    rw [hk]
    simp [hsa]
  | cons bh bt =>
    simp only [List.cons_append] at hsa hk
    have hbh : (bh.toLower == 's') = false := space_toLower_ne_s (hb bh (by simp))
    simp only [sensPat1, hprev, if_true, List.cons_append]
    rw [hk]
    simp [hbh, hsa]

theorem apiKeyAlt_suffix {s : List Char} {k : Nat} {r : List Char}
    (h : apiKeyAlt s = some (k, r)) : r <:+ s := by
  simp only [apiKeyAlt] at h
  cases ha : litCI "api".data s with
  | none => rw [ha] at h; cases h
  | some r1 =>
    rw [ha] at h
    have hr1 : r1 <:+ s := litCI_suffix ha
    cases r1 with
    | nil => simp at h
    | cons c r2 =>
      simp only at h
      split at h
      · cases hk : litCI "key".data r2 with
        | some r3 =>
          rw [hk] at h
          simp only [Option.some.injEq, Prod.mk.injEq] at h
          exact (h.2 ▸ (litCI_suffix hk).trans (List.suffix_cons c r2)).trans hr1
        | none =>
          rw [hk] at h
          simp only [Option.map_eq_some'] at h
          obtain ⟨r3, hr3, heq⟩ := h
          cases heq
          exact ((litCI_suffix hr3).trans hr1)
      · simp only [Option.map_eq_some'] at h
        obtain ⟨r3, hr3, heq⟩ := h
        cases heq
        exact ((litCI_suffix hr3).trans hr1)

theorem kwSecret_suffix {s : List Char} {k : Nat} {r : List Char}
    (h : kwSecret s = some (k, r)) : r <:+ s := by
  simp only [kwSecret] at h
  cases h0 : litCI "password".data s with
  | some r0 =>
    rw [h0] at h
    simp only [Option.some.injEq, Prod.mk.injEq] at h
    exact h.2 ▸ litCI_suffix h0
  | none =>
    rw [h0] at h
    cases h1 : apiKeyAlt s with
    | some p =>
      rw [h1] at h
      simp only [Option.some.injEq] at h
      obtain ⟨k1, r1⟩ := p
      cases h
      exact apiKeyAlt_suffix h1
    | none =>
      rw [h1] at h
      cases h2 : litCI "secret".data s with
      | some r2 =>
        rw [h2] at h
        simp only [Option.some.injEq, Prod.mk.injEq] at h
        exact h.2 ▸ litCI_suffix h2
      | none =>
        rw [h2] at h
        cases h3 : litCI "token".data s with
        | some r3 =>
          rw [h3] at h
          simp only [Option.some.injEq, Prod.mk.injEq] at h
          exact h.2 ▸ litCI_suffix h3
        | none =>
          rw [h3] at h
          simp only [Option.map_eq_some'] at h
          obtain ⟨r4, hr4, heq⟩ := h
          cases heq
          exact litCI_suffix hr4

theorem secretAssign_quote_mem {s : List Char} {n : Nat} (h : secretAssign s = some n) :
    ∃ ch ∈ s, isQuote ch = true := by
  simp only [secretAssign] at h
  cases hd : s.dropWhile isSpaceJS with
  | nil => rw [hd] at h; cases h
  | cons c0 r3 =>
    rw [hd] at h
    split at h
    · rename_i r3' heq
      injection heq with he1 he2
      subst he2
      cases hd2 : r3.dropWhile isSpaceJS with
      | nil => rw [hd2] at h; cases h
      | cons q r5 =>
        rw [hd2] at h
        simp only at h
        split at h
        · rename_i hq
          refine ⟨q, ?_, hq⟩
          have h1 : q ∈ r3.dropWhile isSpaceJS := by rw [hd2]; exact List.mem_cons_self _ _
          have h2 : q ∈ r3 := (List.dropWhile_sublist _).mem h1
          have h3 : q ∈ c0 :: r3 := List.mem_cons_of_mem c0 h2
          rw [← hd] at h3
          exact (List.dropWhile_sublist _).mem h3
        · cases h
    · cases h

theorem sensPat1_quote_mem {prev : Option Char} {s : List Char} {n : Nat}
    (h : sensPat1 prev s = some n) : ∃ ch ∈ s, isQuote ch = true := by
  simp only [sensPat1] at h
  split at h
  · cases hk : kwSecret s with
    | none => rw [hk] at h; cases h
    | some p =>
      obtain ⟨klen, r1⟩ := p
      rw [hk] at h
      have hr1 : r1 <:+ s := kwSecret_suffix hk
      simp only at h
      cases r1 with
      | nil =>
        simp only [Option.map_eq_some'] at h
        obtain ⟨m, hm, _⟩ := h
        obtain ⟨ch, hmem, hch⟩ := secretAssign_quote_mem hm
        cases hmem
      | cons c0 r2 =>
        split at h
        · rename_i c' r2' heq
          injection heq with he1 he2
          subst he1
          subst he2
          split at h
          · cases hs2 : secretAssign r2 with
            | some m =>
              obtain ⟨ch, hmem, hch⟩ := secretAssign_quote_mem hs2
              exact ⟨ch, (hr1.sublist).mem (List.mem_cons_of_mem c0 hmem), hch⟩
            | none =>
              rw [hs2] at h
              simp only [Option.map_eq_some'] at h
              obtain ⟨m, hm, _⟩ := h
              obtain ⟨ch, hmem, hch⟩ := secretAssign_quote_mem hm
              exact ⟨ch, (hr1.sublist).mem hmem, hch⟩
          · simp only [Option.map_eq_some'] at h
            obtain ⟨m, hm, _⟩ := h
            obtain ⟨ch, hmem, hch⟩ := secretAssign_quote_mem hm
            exact ⟨ch, (hr1.sublist).mem hmem, hch⟩
        · rename_i heq
          simp at heq
  · cases h

theorem sensPat2_paren_mem {prev : Option Char} {s : List Char} {n : Nat}
    (h : sensPat2 prev s = some n) : '(' ∈ s := by
  simp only [sensPat2] at h
  split at h
  · cases hl : litCI "console.".data s with
    | none => rw [hl] at h; cases h
    | some r1 =>
      rw [hl] at h
      simp only at h
      cases hm : matchAltCI logMethods r1 with
      | none => rw [hm] at h; cases h
      | some p =>
        obtain ⟨mlen, r2⟩ := p
        rw [hm] at h
        simp only at h
        cases hd : r2.dropWhile isSpaceJS with
        | nil => rw [hd] at h; cases h
        | cons c0 r4 =>
          rw [hd] at h
          split at h
          · rename_i r4' heq
            injection heq with he1 he2
            subst he1
            have h1 : '(' ∈ r2.dropWhile isSpaceJS := by rw [hd]; exact List.mem_cons_self _ _
            have h2 : '(' ∈ r2 := (List.dropWhile_sublist _).mem h1
            have h3 : '(' ∈ r1 := ((matchAltCI_suffix hm).sublist).mem h2
            exact ((litCI_suffix hl).sublist).mem h3
          · cases h
  · cases h

theorem sensDiagnostics_nil {text : String}
    (hnq : ∀ ch ∈ text.data, isQuote ch = false) (hnp : '(' ∉ text.data) :
    sensitiveDataDiagnostics text = [] := by
  have h1 : findMatches sensPat1 text.data = [] :=
    findMatches_eq_nil fun prev' s' hs => by
      cases hp : sensPat1 prev' s' with
      | none => rfl
      | some n =>
        obtain ⟨ch, hmem, hch⟩ := sensPat1_quote_mem hp
        rw [hnq ch (hs.mem hmem)] at hch
        cases hch
  have h2 : findMatches sensPat2 text.data = [] :=
    findMatches_eq_nil fun prev' s' hs => by
      cases hp : sensPat2 prev' s' with
      | none => rfl
      | some n => exact absurd (hs.mem (sensPat2_paren_mem hp)) hnp
  simp [sensitiveDataDiagnostics, diagsOf, h1, h2]

/-- C9: every text assigning a quoted literal (not starting with
`process.env`) to a variable named by the secret pattern yields at least one
sensitive-data finding; a text with no quote character and no parenthesis —
in particular an environment-variable read — yields none; and on
`const apiKey = process.env.API_KEY;` the engine reports nothing at all. -/
theorem c9_sensitive_data_rule :
    (∀ (a name b c v d : List Char) (q : Char), name ∈ secretNames →
      bOk (prevOf none a) = true →
      (∀ x ∈ b, isSpaceJS x = true) → (∀ x ∈ c, isSpaceJS x = true) →
      isQuote q = true → v ≠ [] → (∀ x ∈ v, isQuote x = false) →
      startsWithCI "process.env".data (v ++ q :: d) = false →
      1 ≤ (sensitiveFindings ⟨a ++ (name ++ (b ++ '=' :: (c ++ q :: (v ++ q :: d))))⟩).length) ∧
    (∀ text : String, (∀ ch ∈ text.data, isQuote ch = false) → '(' ∉ text.data →
      sensitiveFindings text = []) ∧
    runSecurityRules "const apiKey = process.env.API_KEY;" = [] := by
  refine ⟨?_, ?_, by decide⟩
  · intro a name b c v d q hname hprev hb hc hq hv hvq hla
    rw [sensitiveFindings_eq]
    obtain ⟨n, hn⟩ := Option.isSome_iff_exists.mp
      (sensPat1_isSome hname hprev hb hc hq hv hvq hla)
    have hne : findMatches sensPat1
        (a ++ (name ++ (b ++ '=' :: (c ++ q :: (v ++ q :: d))))) ≠ [] :=
      findMatches_ne_nil hn
    have hpos := List.length_pos.mpr hne
    simp only [sensitiveDataDiagnostics, diagsOf, List.length_append, List.length_map]
    omega
  · intro text hnq hnp
    rw [sensitiveFindings_eq]
    exact sensDiagnostics_nil hnq hnp

theorem c9_sensitive_data_rule_witness :
    1 ≤ (sensitiveFindings ⟨"const ".data ++ ("apikey".data ++ (" ".data ++ '=' ::
      (" ".data ++ '"' :: ("sk_test_123".data ++ '"' :: ";".data))))⟩).length ∧
    sensitiveFindings "const apiKey = process.env.API_KEY;" = [] :=
  ⟨c9_sensitive_data_rule.1 "const ".data "apikey".data " ".data " ".data
      "sk_test_123".data ";".data '"' (by decide) (by decide) (by decide) (by decide)
      (by decide) (by decide) (by decide) (by decide),
   c9_sensitive_data_rule.2.1 "const apiKey = process.env.API_KEY;" (by decide) (by decide)⟩

/-! ## C2: the XSS rule and its severity -/

/-- C2: the XSS rule fires on `innerHTML`/`outerHTML` assignments and not on
`textContent`, and the canonical input yields exactly one XSS finding — but
that finding carries `Warning` severity (part_002 line 90) even though the
rule itself is declared with severity `Error` (line 74), contradicting the
claimed error-level severity mapping for XSS findings. -/
theorem c2_xss_rule_severity :
    runSecurityRules "element.innerHTML = userInput;" =
      [⟨.Warning, 8, 29, xssMsg, "security-assistant"⟩] ∧
    runSecurityRules "element.outerHTML = userInput;" =
      [⟨.Warning, 8, 29, xssMsg, "security-assistant"⟩] ∧
    runSecurityRules "element.textContent = userInput;" = [] ∧
    xssVulnerabilityRule.severity = DiagnosticSeverity.Error ∧
    (∀ dg ∈ runSecurityRules "element.innerHTML = userInput;",
      dg.severity = DiagnosticSeverity.Warning) :=
  ⟨by decide, by decide, by decide, rfl, by decide⟩

/-! ## C7: template-interpolated queries -/

/-- C7: on the template-interpolated query of test SQL-03 (which contains no
`+`), `runSecurityRules` produces no finding at all, although the test
asserts exactly one SQL-injection finding — every pattern of the SQL rule
requires a literal `+` concatenation. -/
theorem c7_template_interpolation :
    runSecurityRules "const query = `SELECT * FROM users WHERE role = ${userRole}`;" = [] := by
  decide

/-! ## C4: the keyword fallback search -/

/-- The claim's tokenizer: the nonempty lowercase whitespace-delimited terms
of the query. -/
def specTerms (query : String) : List String :=
  (splitWsJS (lowerStr query)).filter (· ≠ "")

/-- The claim's score formula: 1 per query term contained in the lowercased
content, plus 2 when the (lowercased) category is contained in the lowercased
query, plus 1 per (lowercased) tag contained in the lowercased query. -/
def specScore (query : String) (doc : Document) : Nat :=
  ((specTerms query).countP fun t => strIncludes (lowerStr doc.pageContent) t) +
  (if strIncludes (lowerStr query) (lowerStr doc.metadata.category) then 2 else 0) +
  (match doc.metadata.tags with
   | some ts => ts.countP fun tag => strIncludes (lowerStr query) (lowerStr tag)
   | none => 0)

/-- The claim's description of the fallback: stable descending sort by
`specScore`, then the top `k` documents. -/
def specKeywordSearch (documents : List Document) (query : String) (k : Nat) :
    List Document :=
  ((sortDesc (documents.map fun doc => (doc, specScore query doc))).take k).map Prod.fst

/-- C4: on queries whose whitespace-split has no empty pieces and corpora
with non-empty categories, `simpleKeywordSearch` computes exactly the
claim's algorithm (term/category/tag scores, stable descending sort, top
`k`); and on the three built-in documents the query "sql injection risk"
ranks the `sql-injection` document first. -/
theorem c4_keyword_fallback :
    (∀ (documents : List Document) (query : String) (k : Nat),
      (∀ t ∈ splitWsJS (lowerStr query), t ≠ "") →
      (∀ doc ∈ documents, doc.metadata.category ≠ "") →
      simpleKeywordSearch documents query k = specKeywordSearch documents query k) ∧
    (simpleKeywordSearch defaultKnowledgeDocs "sql injection risk" 2).head?.map
      (fun doc => doc.metadata.category) = some "sql-injection" := by
  constructor
  · intro documents query k hterms hcat
    have ht : specTerms query = splitWsJS (lowerStr query) :=
      List.filter_eq_self.mpr fun t htmem => by simpa using hterms t htmem
    have hsc : ∀ doc ∈ documents,
        docScore (splitWsJS (lowerStr query)) query doc = specScore query doc := by
      intro doc hdoc
      have hc' : decide (doc.metadata.category ≠ "") = true := by
        simp [hcat doc hdoc]
      simp only [docScore, specScore, ht, hc', Bool.true_and]
    have hmap : (documents.map fun doc =>
        (doc, docScore (splitWsJS (lowerStr query)) query doc)) =
        documents.map fun doc => (doc, specScore query doc) :=
      List.map_congr_left fun doc hdoc => by rw [hsc doc hdoc]
    simp only [simpleKeywordSearch, specKeywordSearch, hmap]
  · decide

theorem c4_keyword_fallback_witness :
    simpleKeywordSearch defaultKnowledgeDocs "sql injection risk" 2 =
      specKeywordSearch defaultKnowledgeDocs "sql injection risk" 2 :=
  c4_keyword_fallback.1 defaultKnowledgeDocs "sql injection risk" 2 (by decide) (by decide)

/-- C10 counterexample: with the cursor at the start of an empty second line
the current line's prefix trims to fewer than 3 characters, yet the
completion does not short-circuit — the check is on the whole text before
the cursor, so the LLM response is parsed into candidates. -/
theorem c10_counterexample :
    (trimJS (currentLinePrefix "abcdef\n" 7)).length < 3 ∧
    generateCodeCompletion true (fun _ _ => .ok llmResponseStub) "abcdef\n" 7 ≠ [] := by
  constructor
  · decide
  · decide

end CodeSupervisor
